import Mathlib

/-!
Shallow embedding of the queuectl job-queue core (TypeScript sources:
src/types/index.ts, src/storage/JobStorage.ts, src/core/QueueManager.ts,
src/workers/WorkerManager.ts / Worker.ts).

Modelling conventions:
* ISO-8601 timestamp strings are modelled as `Int` epoch milliseconds; the
  code only ever compares timestamps through `Date` conversion, which agrees
  with integer comparison on well-formed timestamps.
* `attempts` is a `Nat` (the code initialises it to 0, only increments it, or
  resets it to 0); `max_retries` is an `Int` because `enqueue` accepts any
  numeric override, including negative ones.
* A TypeScript optional field is `Option _`; a `Partial<Job>` update object
  is a record of `Option`s where `none` means "key absent" and, for optional
  job fields, `some none` means "key present with value undefined" (which the
  spread `{...job, ...updates}` writes through, clearing the field).
* The file-lock / JSON persistence layer serialises every storage operation;
  each storage-level read or read-modify-write is modelled as one atomic
  function on the in-memory job list.  Math.pow on the integer backoff base
  with a positive integer exponent is exact integer exponentiation.
-/

/-- Job state enumeration (src/types/index.ts `JobState`). -/
inductive JobState where
  | pending
  | processing
  | completed
  | failed
  | dead
deriving DecidableEq, Repr

/-- Job record (src/types/index.ts `Job`). -/
structure Job where
  id : String
  command : String
  state : JobState
  attempts : Nat
  max_retries : Int
  created_at : Int
  updated_at : Int
  next_retry_at : Option Int
  error_message : Option String
  output : Option String
  worker_id : Option String
deriving DecidableEq, Repr

/-- A `Partial<Job>` update object: `none` = key absent, `some v` = key
present with value `v` (for optional job fields `v` is itself an `Option`,
and `some none` models an explicit `undefined`). -/
structure JobPartial where
  id : Option String
  command : Option String
  state : Option JobState
  attempts : Option Nat
  max_retries : Option Int
  created_at : Option Int
  updated_at : Option Int
  next_retry_at : Option (Option Int)
  error_message : Option (Option String)
  output : Option (Option String)
  worker_id : Option (Option String)
deriving DecidableEq, Repr

/-- The empty update object (no keys present). -/
def JobPartial.empty : JobPartial :=
  ⟨none, none, none, none, none, none, none, none, none, none, none⟩

/-- The merge `{...job, ...updates, updated_at: now}` performed by
`JobStorage.updateJob`: every key present in `updates` overwrites the job
field, and the explicit `updated_at` stamp comes last, so it wins even when
`updates` carries an `updated_at` of its own. -/
def mergeJob (j : Job) (u : JobPartial) (now : Int) : Job :=
  { id := u.id.getD j.id
    command := u.command.getD j.command
    state := u.state.getD j.state
    attempts := u.attempts.getD j.attempts
    max_retries := u.max_retries.getD j.max_retries
    created_at := u.created_at.getD j.created_at
    updated_at := now
    next_retry_at := u.next_retry_at.getD j.next_retry_at
    error_message := u.error_message.getD j.error_message
    output := u.output.getD j.output
    worker_id := u.worker_id.getD j.worker_id }

namespace JobStorage

/-- `JobStorage.addJob`: reads the job list, pushes the new record, writes the
list back.  There is no duplicate-id check of any kind. -/
def addJob (jobs : List Job) (job : Job) : List Job :=
  jobs ++ [job]

/-- `JobStorage.updateJob`: finds the first job with the given id, merges the
update object into it and stamps `updated_at`; returns the new list and
`true`, or the unchanged list and `false` when the id is absent. -/
def updateJob (jobs : List Job) (jobId : String) (u : JobPartial) (now : Int) :
    List Job × Bool :=
  match jobs with
  | [] => ([], false)
  | j :: rest =>
    if j.id = jobId then
      (mergeJob j u now :: rest, true)
    else
      let r := updateJob rest jobId u now
      (j :: r.1, r.2)

/-- `JobStorage.getJob`: first job with the given id, if any. -/
def getJob (jobs : List Job) (jobId : String) : Option Job :=
  jobs.find? (fun j => j.id = jobId)

/-- `JobStorage.getJobsByState`. -/
def getJobsByState (jobs : List Job) (state : JobState) : List Job :=
  jobs.filter (fun j => j.state = state)

/-- Eligibility filter used by `JobStorage.getNextPendingJob`: state Pending
or Failed, and `next_retry_at` absent or not after `now`. -/
def isEligible (now : Int) (j : Job) : Bool :=
  (j.state = JobState.pending || j.state = JobState.failed) &&
  (match j.next_retry_at with
   | some t => t ≤ now
   | none => true)

/-- `JobStorage.getNextPendingJob`: filter the eligible jobs, sort them by
`created_at` ascending (JavaScript `Array.sort` is stable; `mergeSort` is the
matching stable sort) and return the first, or `none` when there is none. -/
def getNextPendingJob (jobs : List Job) (now : Int) : Option Job :=
  let availableJobs := jobs.filter (fun j => isEligible now j)
  (availableJobs.mergeSort (fun a b => a.created_at ≤ b.created_at)).head?

/-- `JobStorage.deleteJob`: removes every job with the given id; returns
`false` and the unchanged list when none matched. -/
def deleteJob (jobs : List Job) (jobId : String) : List Job × Bool :=
  let filtered := jobs.filter (fun j => ¬ (j.id = jobId))
  if filtered.length = jobs.length then (jobs, false) else (filtered, true)

end JobStorage

namespace QueueManager

/-- `JobExecutor.validateCommand`: rejects a command that is empty after
trimming or longer than 10000 characters. -/
def validateCommand (command : String) : Bool :=
  ¬ (command.trim.length = 0) && ¬ (command.length > 10000)

/-- `QueueManager.enqueue`: validates the command, then builds a fresh
Pending job with attempts 0, both timestamps `now`, and `max_retries` equal
to the numeric override when one is given (no range check of any kind) or the
configured default otherwise, and appends it via `JobStorage.addJob`.  The
fresh uuid is passed in as `newId`; the result is the new store paired with
the created job, or `Except.error` when validation fails. -/
def enqueue (jobs : List Job) (newId command : String) (maxRetries? : Option Int)
    (configMaxRetries : Int) (now : Int) : Except String (List Job × Job) :=
  if command.trim.length = 0 then Except.error "Command cannot be empty"
  else if command.length > 10000 then Except.error "Command is too long"
  else
    let job : Job :=
      { id := newId
        command := command
        state := JobState.pending
        attempts := 0
        max_retries := maxRetries?.getD configMaxRetries
        created_at := now
        updated_at := now
        next_retry_at := none
        error_message := none
        output := none
        worker_id := none }
    Except.ok (JobStorage.addJob jobs job, job)

/-- The `Partial<Job>` literal `{ state: PROCESSING, worker_id: workerId }`
written by `QueueManager.processJob` when it marks a claimed job busy. -/
def processingUpdate (workerId : String) : JobPartial :=
  { JobPartial.empty with
    state := some JobState.processing
    worker_id := some (some workerId) }

/-- The busy-marking step of `QueueManager.processJob`: one
`storage.updateJob` call setting state Processing and the claiming worker's
id.  Nothing in the update object touches `next_retry_at`. -/
def markProcessing (jobs : List Job) (jobId workerId : String) (now : Int) :
    List Job :=
  (JobStorage.updateJob jobs jobId (processingUpdate workerId) now).1

/-- The `Partial<Job>` literal `{ state: COMPLETED, output, worker_id:
undefined }` written by the success branch of `QueueManager.processJob`. -/
def completeUpdate (output : Option String) : JobPartial :=
  { JobPartial.empty with
    state := some JobState.completed
    output := some output
    worker_id := some none }

/-- The success branch of `QueueManager.processJob`: one `storage.updateJob`
call setting state Completed, recording the output and clearing
`worker_id`. -/
def completeJob (jobs : List Job) (jobId : String) (output : Option String)
    (now : Int) : List Job :=
  (JobStorage.updateJob jobs jobId (completeUpdate output) now).1

/-- `QueueManager.handleJobFailure`: looks the job up, increments attempts;
if the post-increment count reaches `max_retries` the job goes to Dead
(recording the error, clearing `worker_id`), otherwise to Failed with
`next_retry_at = now + backoffBase ^ newAttempts` seconds (timestamps are in
milliseconds, hence the factor 1000) and `worker_id` cleared.  An unknown id
is a silent no-op. -/
def handleJobFailure (jobs : List Job) (jobId errorMessage : String)
    (backoffBase : Int) (now : Int) : List Job :=
  match JobStorage.getJob jobs jobId with
  | none => jobs
  | some job =>
    let newAttempts := job.attempts + 1
    if (newAttempts : Int) ≥ job.max_retries then
      (JobStorage.updateJob jobs jobId
        { JobPartial.empty with
          state := some JobState.dead
          attempts := some newAttempts
          error_message := some (some errorMessage)
          worker_id := some none } now).1
    else
      let delaySeconds := backoffBase ^ newAttempts
      let nextRetryAt := now + delaySeconds * 1000
      (JobStorage.updateJob jobs jobId
        { JobPartial.empty with
          state := some JobState.failed
          attempts := some newAttempts
          error_message := some (some errorMessage)
          next_retry_at := some (some nextRetryAt)
          worker_id := some none } now).1

/-- `QueueManager.getNextJob`: delegates to `JobStorage.getNextPendingJob`
without marking anything. -/
def getNextJob (jobs : List Job) (now : Int) : Option Job :=
  JobStorage.getNextPendingJob jobs now

/-- The `Partial<Job>` literal `{ state: PENDING, attempts: 0,
error_message: undefined, next_retry_at: undefined }` written by
`QueueManager.retryDeadJob`. -/
def retryUpdate : JobPartial :=
  { JobPartial.empty with
    state := some JobState.pending
    attempts := some 0
    error_message := some none
    next_retry_at := some none }

/-- `QueueManager.retryDeadJob`: returns `false` and leaves the store as it
is unless the id names a Dead job; otherwise resets attempts to 0, clears
`error_message` and `next_retry_at`, sets state Pending and returns
`true`. -/
def retryDeadJob (jobs : List Job) (jobId : String) (now : Int) :
    List Job × Bool :=
  match JobStorage.getJob jobs jobId with
  | none => (jobs, false)
  | some job =>
    if job.state = JobState.dead then
      ((JobStorage.updateJob jobs jobId retryUpdate now).1, true)
    else
      (jobs, false)

/-- The `Partial<Job>` literal `{ state: PENDING, worker_id: undefined }`
written by `QueueManager.resetStuckJobs` for each Processing job. -/
def resetUpdate : JobPartial :=
  { JobPartial.empty with
    state := some JobState.pending
    worker_id := some none }

/-- `QueueManager.resetStuckJobs`: takes a snapshot of the store, then for
every snapshot entry in Processing issues one `storage.updateJob` setting it
back to Pending with `worker_id` cleared, counting the resets. -/
def resetStuckJobs (jobs : List Job) (now : Int) : List Job × Nat :=
  jobs.foldl
    (fun acc j =>
      if j.state = JobState.processing then
        ((JobStorage.updateJob acc.1 j.id resetUpdate now).1, acc.2 + 1)
      else acc)
    (jobs, 0)

/-- Iterated `handleJobFailure`: the effect on the store of `n` consecutive
failure reports for the same job id (each report is one call of the
failure handler, as issued by `processJob` after a non-zero exit). -/
def failTimes (n : Nat) (jobs : List Job) (jobId errorMessage : String)
    (backoffBase : Int) (now : Int) : List Job :=
  match n with
  | 0 => jobs
  | Nat.succ m =>
    handleJobFailure (failTimes m jobs jobId errorMessage backoffBase now)
      jobId errorMessage backoffBase now

end QueueManager

/-! ## Worker claim protocol (src/workers/Worker.ts)

`Worker.processNextJob` runs, in order: (1) `queueManager.getNextJob()` — a
pure read of the store, one lock-serialised storage operation; then, when a
job came back, it sets its worker-local `state := busy` /
`currentJobId := job.id` and calls `processJob`, whose first store write is
(2) the busy-marking `updateJob` — a second, separately lock-serialised
storage operation.  The model below makes each of those storage operations
one atomic step (worker-local variable writes are unshared, so they are
bundled with the adjacent storage operation); this is *coarser* than the
real code, which even splits `updateJob` into a locked read plus a locked
write, so any interleaving expressible here is expressible in the code. -/

/-- Worker-local runtime state: `currentJobId` and the busy flag
(src/workers/Worker.ts fields `currentJobId` / `state`). -/
structure WorkerLoc where
  currentJobId : Option String
  busy : Bool
deriving DecidableEq, Repr

/-- Idle worker-local state. -/
def WorkerLoc.idle : WorkerLoc := ⟨none, false⟩

/-- Step (1) of `Worker.processNextJob`: if idle, read
`getNextJob` and, when a job comes back, go busy on it. -/
def selectStep (now : Int) (store : List Job) (l : WorkerLoc) : WorkerLoc :=
  if l.busy then l
  else
    match QueueManager.getNextJob store now with
    | some job => ⟨some job.id, true⟩
    | none => l

/-- Step (2) of `Worker.processNextJob` (first write of
`QueueManager.processJob`): mark the selected job Processing with this
worker's id. -/
def markStep (now : Int) (workerId : String) (store : List Job)
    (l : WorkerLoc) : List Job :=
  match l.currentJobId with
  | some jobId => QueueManager.markProcessing store jobId workerId now
  | none => store

/-- Global state of a two-worker claim race: the shared store plus each
worker's local state.  Worker 1 has id "w1", worker 2 has id "w2". -/
structure RaceState where
  store : List Job
  w1 : WorkerLoc
  w2 : WorkerLoc
deriving DecidableEq, Repr

/-- One atomic (lock-serialised) event of the two-worker claim race. -/
inductive RaceStep where
  | select1
  | mark1
  | select2
  | mark2
deriving DecidableEq, Repr

/-- Transition function of the claim race. -/
def raceStep (now : Int) (s : RaceState) : RaceStep → RaceState
  | RaceStep.select1 => { s with w1 := selectStep now s.store s.w1 }
  | RaceStep.mark1 => { s with store := markStep now "w1" s.store s.w1 }
  | RaceStep.select2 => { s with w2 := selectStep now s.store s.w2 }
  | RaceStep.mark2 => { s with store := markStep now "w2" s.store s.w2 }

/-- Run a sequence of race events from an initial state. -/
def runRace (now : Int) (s : RaceState) (steps : List RaceStep) : RaceState :=
  steps.foldl (raceStep now) s

/-! ## Worker pool startup (src/workers/WorkerManager.ts) -/

/-- Observable events of `WorkerManager.start`. -/
inductive StartEvent where
  | recoverOrphans
  | spawnWorker (i : Nat)
deriving DecidableEq, Repr

/-- `WorkerManager.start`: rejects a count below 1, rejects a double start,
and otherwise awaits `resetStuckJobs` (orphan recovery) once and then spawns
`count` workers, in that order. -/
def workerManagerStart (alreadyRunning : Bool) (count : Nat) :
    Except String (List StartEvent) :=
  if count < 1 then Except.error "Worker count must be at least 1"
  else if alreadyRunning then
    Except.error "Workers are already running. Stop them first."
  else
    Except.ok (StartEvent.recoverOrphans ::
      (List.range count).map StartEvent.spawnWorker)

/-! ## Derived helper functions (per-job views of store operations) -/

/-- Effect of one `handleJobFailure` call on the job it found (the branch on
the post-increment attempt count, written as the merge the code performs). -/
def failJobOnce (errorMessage : String) (backoffBase now : Int) (j : Job) :
    Job :=
  let newAttempts := j.attempts + 1
  if (newAttempts : Int) ≥ j.max_retries then
    mergeJob j
      { JobPartial.empty with
        state := some JobState.dead
        attempts := some newAttempts
        error_message := some (some errorMessage)
        worker_id := some none } now
  else
    mergeJob j
      { JobPartial.empty with
        state := some JobState.failed
        attempts := some newAttempts
        error_message := some (some errorMessage)
        next_retry_at := some (some (now + backoffBase ^ newAttempts * 1000))
        worker_id := some none } now

/-- Per-job effect of `resetStuckJobs`: a Processing job goes back to
Pending with `worker_id` cleared and `updated_at` stamped; any other job is
untouched. -/
def resetJobFn (now : Int) (j : Job) : Job :=
  if j.state = JobState.processing then
    mergeJob j QueueManager.resetUpdate now
  else j

/-- The record invariant `worker_id` set ⇔ state == Processing. -/
def workerInv (j : Job) : Prop :=
  j.worker_id.isSome ↔ j.state = JobState.processing

/-! ## Concrete sample records used by witnesses and counterexamples -/

/-- A fresh Pending job (field order: id, command, state, attempts,
max_retries, created_at, updated_at, next_retry_at, error_message, output,
worker_id). -/
def sampleJobPending : Job :=
  ⟨"a", "echo hi", JobState.pending, 0, 3, 0, 0, none, none, none, none⟩

/-- A Failed job with one attempt spent and a retry scheduled at t=50. -/
def sampleJobFailed : Job :=
  ⟨"b", "exit 1", JobState.failed, 1, 3, 0, 10, some 50, some "boom", none,
    none⟩

/-- A Dead job with its retry budget exhausted. -/
def sampleJobDead : Job :=
  ⟨"c", "exit 1", JobState.dead, 3, 3, 0, 20, none, some "boom", none, none⟩

/-- A Processing job claimed by worker "w9". -/
def sampleJobProcessing : Job :=
  ⟨"d", "sleep 5", JobState.processing, 0, 3, 0, 30, none, none, none,
    some "w9"⟩

/-- A freshly claimed job whose `max_retries` override was 0. -/
def sampleJobZeroRetries : Job :=
  ⟨"e", "exit 1", JobState.processing, 0, 0, 0, 40, none, none, none,
    some "w1"⟩

/-- A sample update object setting only the output field. -/
def sampleUpdate : JobPartial :=
  { JobPartial.empty with output := some (some "done") }

/-- The claim-race scenario of the concurrency claim: a store holding the
single Pending job "a", two idle workers, and the interleaving
select(w1), select(w2), mark(w1), mark(w2) — each event one lock-serialised
storage operation of `Worker.processNextJob`. -/
def raceDemoFinal : RaceState :=
  runRace 100 ⟨[sampleJobPending], WorkerLoc.idle, WorkerLoc.idle⟩
    [RaceStep.select1, RaceStep.select2, RaceStep.mark1, RaceStep.mark2]

/-! ## Helper lemmas on the storage layer -/

theorem updateJob_not_found (jobs : List Job) (jobId : String) (u : JobPartial)
    (now : Int) (h : ∀ j ∈ jobs, ¬ j.id = jobId) :
    JobStorage.updateJob jobs jobId u now = (jobs, false) := by
  induction jobs with
  | nil => rfl
  | cons j rest ih =>
    have hj : ¬ j.id = jobId := h j (by simp)
    have hr : ∀ x ∈ rest, ¬ x.id = jobId := fun x hx => h x (by simp [hx])
    simp [JobStorage.updateJob, hj, ih hr]

theorem updateJob_found (pre : List Job) (j : Job) (post : List Job)
    (jobId : String) (u : JobPartial) (now : Int)
    (hpre : ∀ p ∈ pre, ¬ p.id = jobId) (hj : j.id = jobId) :
    JobStorage.updateJob (pre ++ j :: post) jobId u now =
      (pre ++ mergeJob j u now :: post, true) := by
  induction pre with
  | nil => simp [JobStorage.updateJob, hj]
  | cons p rest ih =>
    have hp : ¬ p.id = jobId := hpre p (by simp)
    have hr : ∀ x ∈ rest, ¬ x.id = jobId := fun x hx => hpre x (by simp [hx])
    simp [JobStorage.updateJob, hp, ih hr]

theorem getJob_eq_some (jobs : List Job) (jobId : String) (j : Job) :
    JobStorage.getJob jobs jobId = some j ↔
      j.id = jobId ∧ ∃ pre post, jobs = pre ++ j :: post ∧
        ∀ p ∈ pre, ¬ p.id = jobId := by
  simp [JobStorage.getJob, List.find?_eq_some]

theorem getJob_eq_none (jobs : List Job) (jobId : String) :
    JobStorage.getJob jobs jobId = none ↔ ∀ j ∈ jobs, ¬ j.id = jobId := by
  simp [JobStorage.getJob, List.find?_eq_none]

theorem getJob_append (pre : List Job) (m : Job) (post : List Job)
    (jobId : String) (hpre : ∀ p ∈ pre, ¬ p.id = jobId) (hm : m.id = jobId) :
    JobStorage.getJob (pre ++ m :: post) jobId = some m := by
  induction pre with
  | nil => simp [JobStorage.getJob, List.find?, hm]
  | cons p rest ih =>
    have hp : ¬ p.id = jobId := hpre p (by simp)
    have hr : ∀ x ∈ rest, ¬ x.id = jobId := fun x hx => hpre x (by simp [hx])
    simpa [JobStorage.getJob, List.find?, hp] using ih hr

theorem updateJob_of_getJob (jobs : List Job) (jobId : String) (u : JobPartial)
    (now : Int) (j : Job) (h : JobStorage.getJob jobs jobId = some j) :
    ∃ pre post, jobs = pre ++ j :: post ∧ (∀ p ∈ pre, ¬ p.id = jobId) ∧
      j.id = jobId ∧
      JobStorage.updateJob jobs jobId u now =
        (pre ++ mergeJob j u now :: post, true) := by
  obtain ⟨hid, pre, post, hdec, hpre⟩ := (getJob_eq_some jobs jobId j).1 h
  exact ⟨pre, post, hdec, hpre, hid,
    by rw [hdec]; exact updateJob_found pre j post jobId u now hpre hid⟩

theorem isEligible_iff (now : Int) (j : Job) :
    JobStorage.isEligible now j = true ↔
      (j.state = JobState.pending ∨ j.state = JobState.failed) ∧
      (∀ t, j.next_retry_at = some t → t ≤ now) := by
  unfold JobStorage.isEligible
  cases h : j.next_retry_at with
  | none => simp [h]
  | some t => simp [h]

theorem getNextPendingJob_some (jobs : List Job) (now : Int) (j : Job)
    (h : JobStorage.getNextPendingJob jobs now = some j) :
    j ∈ jobs ∧ JobStorage.isEligible now j = true ∧
      ∀ x ∈ jobs, JobStorage.isEligible now x = true →
        j.created_at ≤ x.created_at := by
  simp only [JobStorage.getNextPendingJob] at h
  have hperm :
      ((jobs.filter (fun x => JobStorage.isEligible now x)).mergeSort
        (fun a b => a.created_at ≤ b.created_at)).Perm
        (jobs.filter (fun x => JobStorage.isEligible now x)) :=
    List.mergeSort_perm _ _
  have hsort :
      List.Pairwise
        (fun a b : Job => decide (a.created_at ≤ b.created_at) = true)
        ((jobs.filter (fun x => JobStorage.isEligible now x)).mergeSort
          (fun a b => a.created_at ≤ b.created_at)) := by
    apply List.sorted_mergeSort
    · intro a b c hab hbc
      simp only [decide_eq_true_eq] at *
      omega
    · intro a b
      rcases Int.le_total a.created_at b.created_at with h1 | h1 <;> simp [h1]
  cases hs : (jobs.filter (fun x => JobStorage.isEligible now x)).mergeSort
      (fun a b => a.created_at ≤ b.created_at) with
  | nil => rw [hs] at h; simp at h
  | cons a t =>
    rw [hs] at h
    simp only [List.head?] at h
    obtain rfl : a = j := by injection h
    rw [hs] at hperm hsort
    have hself : a ∈ jobs.filter (fun x => JobStorage.isEligible now x) :=
      hperm.subset (List.mem_cons_self _ _)
    have hmem := List.mem_filter.1 hself
    refine ⟨hmem.1, hmem.2, ?_⟩
    intro x hx hxel
    have hxavail : x ∈ jobs.filter (fun y => JobStorage.isEligible now y) :=
      List.mem_filter.2 ⟨hx, hxel⟩
    have hxsorted : x ∈ a :: t := hperm.mem_iff.2 hxavail
    rcases List.mem_cons.1 hxsorted with rfl | hxt
    · exact Int.le_refl _
    · have := (List.pairwise_cons.1 hsort).1 x hxt
      simpa using this

theorem getNextPendingJob_none (jobs : List Job) (now : Int) :
    JobStorage.getNextPendingJob jobs now = none ↔
      ∀ x ∈ jobs, ¬ JobStorage.isEligible now x = true := by
  simp only [JobStorage.getNextPendingJob]
  have hperm :
      ((jobs.filter (fun x => JobStorage.isEligible now x)).mergeSort
        (fun a b => a.created_at ≤ b.created_at)).Perm
        (jobs.filter (fun x => JobStorage.isEligible now x)) :=
    List.mergeSort_perm _ _
  constructor
  · intro h x hx hxel
    have hnil : (jobs.filter (fun y => JobStorage.isEligible now y)) = [] := by
      cases hs : (jobs.filter (fun y => JobStorage.isEligible now y)).mergeSort
          (fun a b => a.created_at ≤ b.created_at) with
      | nil => rw [hs] at hperm; exact (hperm.symm.eq_nil)
      | cons a t => rw [hs] at h; simp [List.head?] at h
    have hxavail : x ∈ jobs.filter (fun y => JobStorage.isEligible now y) :=
      List.mem_filter.2 ⟨hx, hxel⟩
    rw [hnil] at hxavail
    simp at hxavail
  · intro h
    have hnil : (jobs.filter (fun y => JobStorage.isEligible now y)) = [] := by
      apply List.filter_eq_nil_iff.2
      intro x hx
      simpa using h x hx
    rw [hnil]
    simp

theorem handleJobFailure_singleton (j : Job) (errorMessage : String)
    (backoffBase now : Int) :
    QueueManager.handleJobFailure [j] j.id errorMessage backoffBase now =
      [failJobOnce errorMessage backoffBase now j] := by
  have hget : JobStorage.getJob [j] j.id = some j :=
    getJob_append [] j [] j.id (by simp) rfl
  have hupd : ∀ u : JobPartial,
      JobStorage.updateJob [j] j.id u now = ([mergeJob j u now], true) := by
    intro u
    simp [JobStorage.updateJob]
  unfold QueueManager.handleJobFailure failJobOnce
  rw [hget]
  by_cases hc : ((j.attempts + 1 : Nat) : Int) ≥ j.max_retries
  · simp only [hc, if_true, hupd]
  · simp only [hc, if_false, hupd]

theorem failTimes_singleton_spec (j0 : Job) (errorMessage : String)
    (backoffBase now : Int) (h0 : j0.attempts = 0) :
    ∀ n : Nat, (n : Int) ≤ j0.max_retries →
      ∃ jn, QueueManager.failTimes n [j0] j0.id errorMessage backoffBase now
          = [jn] ∧
        jn.id = j0.id ∧ jn.max_retries = j0.max_retries ∧ jn.attempts = n ∧
        jn.state = (if n = 0 then j0.state
          else if (n : Int) = j0.max_retries then JobState.dead
          else JobState.failed) := by
  intro n
  induction n with
  | zero => intro _; exact ⟨j0, rfl, rfl, rfl, h0, by simp⟩
  | succ m ih =>
    intro hle
    have hm : (m : Int) ≤ j0.max_retries := by
      have : ((m : Int)) + 1 ≤ j0.max_retries := by exact_mod_cast hle
      omega
    obtain ⟨jm, hfeq, hid, hmr, hatt, _⟩ := ih hm
    have hsing : QueueManager.failTimes (m + 1) [j0] j0.id errorMessage
        backoffBase now = [failJobOnce errorMessage backoffBase now jm] := by
      show QueueManager.handleJobFailure
        (QueueManager.failTimes m [j0] j0.id errorMessage backoffBase now)
        j0.id errorMessage backoffBase now = _
      rw [hfeq, ← hid]
      exact handleJobFailure_singleton jm errorMessage backoffBase now
    have hc1 : ((jm.attempts + 1 : Nat) : Int) = (m : Int) + 1 := by
      rw [hatt]; push_cast; ring
    have hle2 : (m : Int) + 1 ≤ j0.max_retries := by exact_mod_cast hle
    by_cases hc : ((jm.attempts + 1 : Nat) : Int) ≥ jm.max_retries
    · have heq : (m : Int) + 1 = j0.max_retries := by
        rw [hc1, hmr] at hc; omega
      refine ⟨failJobOnce errorMessage backoffBase now jm, hsing, ?_, ?_, ?_, ?_⟩
      · unfold failJobOnce
        rw [if_pos hc]
        simp [mergeJob, JobPartial.empty, hid]
      · unfold failJobOnce
        rw [if_pos hc]
        simp [mergeJob, JobPartial.empty, hmr]
      · unfold failJobOnce
        rw [if_pos hc]
        simp [mergeJob, JobPartial.empty, hatt]
      · unfold failJobOnce
        rw [if_pos hc]
        simp [mergeJob, JobPartial.empty, heq]
    · have hne : ¬ ((m : Int) + 1 = j0.max_retries) := by
        rw [hc1, hmr] at hc; omega
      refine ⟨failJobOnce errorMessage backoffBase now jm, hsing, ?_, ?_, ?_, ?_⟩
      · unfold failJobOnce
        rw [if_neg hc]
        simp [mergeJob, JobPartial.empty, hid]
      · unfold failJobOnce
        rw [if_neg hc]
        simp [mergeJob, JobPartial.empty, hmr]
      · unfold failJobOnce
        rw [if_neg hc]
        simp [mergeJob, JobPartial.empty, hatt]
      · unfold failJobOnce
        rw [if_neg hc]
        simp [mergeJob, JobPartial.empty, hne]

theorem mergeJob_resetUpdate (j : Job) (now : Int) :
    mergeJob j QueueManager.resetUpdate now =
      { j with
          state := JobState.pending
          worker_id := none
          updated_at := now } := by
  cases j
  rfl

theorem resetStuck_go (now : Int) :
    ∀ (pend done : List Job) (c : Nat),
      (∀ d ∈ done, ∀ p ∈ pend, ¬ d.id = p.id) →
      List.Pairwise (fun a b : Job => ¬ a.id = b.id) pend →
      List.foldl
        (fun acc j =>
          if j.state = JobState.processing then
            ((JobStorage.updateJob acc.1 j.id QueueManager.resetUpdate now).1,
              acc.2 + 1)
          else acc)
        (done ++ pend, c) pend =
      (done ++ pend.map (resetJobFn now),
        c + (pend.filter
          (fun j => j.state = JobState.processing)).length) := by
  intro pend
  induction pend with
  | nil =>
    intro done c _ _
    simp
  | cons j rest ih =>
    intro done c hdisj hpair
    have hjrest : ∀ p ∈ rest, ¬ j.id = p.id :=
      fun p hp => (List.pairwise_cons.1 hpair).1 p hp
    have hpair2 : List.Pairwise (fun a b : Job => ¬ a.id = b.id) rest :=
      (List.pairwise_cons.1 hpair).2
    have hdisj2 : ∀ d ∈ done, ¬ d.id = j.id :=
      fun d hd => hdisj d hd j (by simp)
    simp only [List.foldl_cons]
    by_cases hst : j.state = JobState.processing
    · rw [if_pos hst]
      have hupd := updateJob_found done j rest j.id QueueManager.resetUpdate
        now hdisj2 rfl
      rw [hupd]
      have hassoc : done ++ mergeJob j QueueManager.resetUpdate now :: rest =
          (done ++ [mergeJob j QueueManager.resetUpdate now]) ++ rest := by
        simp
      rw [hassoc]
      have hdisj3 : ∀ d ∈ done ++ [mergeJob j QueueManager.resetUpdate now],
          ∀ p ∈ rest, ¬ d.id = p.id := by
        intro d hd p hp
        rcases List.mem_append.1 hd with hdone | hsing
        · exact hdisj d hdone p (by simp [hp])
        · have hdj : d = mergeJob j QueueManager.resetUpdate now := by
            simpa using hsing
          have : d.id = j.id := by
            rw [hdj, mergeJob_resetUpdate]
          rw [this]
          exact hjrest p hp
      have hres := ih (done ++ [mergeJob j QueueManager.resetUpdate now])
        (c + 1) hdisj3 hpair2
      rw [hres]
      have hmap : resetJobFn now j = mergeJob j QueueManager.resetUpdate now := by
        unfold resetJobFn
        rw [if_pos hst]
      simp [hmap, hst]
      omega
    · rw [if_neg hst]
      have hassoc : done ++ j :: rest = (done ++ [j]) ++ rest := by simp
      rw [hassoc]
      have hdisj3 : ∀ d ∈ done ++ [j], ∀ p ∈ rest, ¬ d.id = p.id := by
        intro d hd p hp
        rcases List.mem_append.1 hd with hdone | hsing
        · exact hdisj d hdone p (by simp [hp])
        · have hdj : d = j := by simpa using hsing
          rw [hdj]
          exact hjrest p hp
      have hres := ih (done ++ [j]) c hdisj3 hpair2
      rw [hres]
      have hmap : resetJobFn now j = j := by
        unfold resetJobFn
        rw [if_neg hst]
      simp [hmap, hst]

theorem resetStuckJobs_spec (jobs : List Job) (now : Int)
    (h : List.Pairwise (fun a b : Job => ¬ a.id = b.id) jobs) :
    QueueManager.resetStuckJobs jobs now =
      (jobs.map (resetJobFn now),
        (jobs.filter (fun j => j.state = JobState.processing)).length) := by
  have hgo := resetStuck_go now jobs [] 0 (by simp) h
  simpa [QueueManager.resetStuckJobs] using hgo

theorem workerInv_after_updateJob (jobs : List Job) (jobId : String)
    (u : JobPartial) (now : Int) (hinv : ∀ j ∈ jobs, workerInv j)
    (hmerge : ∀ j, workerInv (mergeJob j u now)) :
    ∀ x ∈ (JobStorage.updateJob jobs jobId u now).1, workerInv x := by
  induction jobs with
  | nil =>
    intro x hx
    simp [JobStorage.updateJob] at hx
  | cons j rest ih =>
    intro x hx
    by_cases hj : j.id = jobId
    · simp only [JobStorage.updateJob, if_pos hj] at hx
      rcases List.mem_cons.1 hx with rfl | hx2
      · exact hmerge j
      · exact hinv x (by simp [hx2])
    · simp only [JobStorage.updateJob, if_neg hj] at hx
      rcases List.mem_cons.1 hx with rfl | hx2
      · exact hinv x (by simp)
      · exact ih (fun y hy => hinv y (by simp [hy])) x hx2

theorem workerInv_merge_processing (j : Job) (workerId : String) (now : Int) :
    workerInv (mergeJob j (QueueManager.processingUpdate workerId) now) := by
  cases j
  simp [workerInv, mergeJob, QueueManager.processingUpdate, JobPartial.empty]

theorem workerInv_merge_complete (j : Job) (output : Option String)
    (now : Int) :
    workerInv (mergeJob j (QueueManager.completeUpdate output) now) := by
  cases j
  simp [workerInv, mergeJob, QueueManager.completeUpdate, JobPartial.empty]

theorem workerInv_merge_reset (j : Job) (now : Int) :
    workerInv (mergeJob j QueueManager.resetUpdate now) := by
  cases j
  simp [workerInv, mergeJob, QueueManager.resetUpdate, JobPartial.empty]

theorem workerInv_markProcessing (jobs : List Job) (jobId workerId : String)
    (now : Int) (hinv : ∀ j ∈ jobs, workerInv j) :
    ∀ x ∈ QueueManager.markProcessing jobs jobId workerId now, workerInv x :=
  workerInv_after_updateJob jobs jobId (QueueManager.processingUpdate workerId)
    now hinv (fun j => workerInv_merge_processing j workerId now)

theorem workerInv_completeJob (jobs : List Job) (jobId : String)
    (output : Option String) (now : Int) (hinv : ∀ j ∈ jobs, workerInv j) :
    ∀ x ∈ QueueManager.completeJob jobs jobId output now, workerInv x :=
  workerInv_after_updateJob jobs jobId (QueueManager.completeUpdate output)
    now hinv (fun j => workerInv_merge_complete j output now)

theorem workerInv_handleJobFailure (jobs : List Job)
    (jobId errorMessage : String) (backoffBase now : Int)
    (hinv : ∀ j ∈ jobs, workerInv j) :
    ∀ x ∈ QueueManager.handleJobFailure jobs jobId errorMessage backoffBase
      now, workerInv x := by
  unfold QueueManager.handleJobFailure
  cases hget : JobStorage.getJob jobs jobId with
  | none => exact hinv
  | some job =>
    by_cases hc : ((job.attempts + 1 : Nat) : Int) ≥ job.max_retries
    · simp only [hc, if_true]
      refine workerInv_after_updateJob jobs jobId _ now hinv ?_
      intro j
      cases j
      simp [workerInv, mergeJob, JobPartial.empty]
    · simp only [hc, if_false]
      refine workerInv_after_updateJob jobs jobId _ now hinv ?_
      intro j
      cases j
      simp [workerInv, mergeJob, JobPartial.empty]

theorem workerInv_retryDeadJob (jobs : List Job) (jobId : String) (now : Int)
    (hinv : ∀ j ∈ jobs, workerInv j) :
    ∀ x ∈ (QueueManager.retryDeadJob jobs jobId now).1, workerInv x := by
  unfold QueueManager.retryDeadJob
  cases hget : JobStorage.getJob jobs jobId with
  | none => exact hinv
  | some job =>
    by_cases hst : job.state = JobState.dead
    · simp only [hst, if_true]
      obtain ⟨pre, post, hdec, hpre, hid, hupd⟩ :=
        updateJob_of_getJob jobs jobId QueueManager.retryUpdate now job hget
      rw [hupd]
      intro x hx
      have hworker : job.worker_id = none := by
        have hj := hinv job (by rw [hdec]; simp)
        unfold workerInv at hj
        cases hw : job.worker_id with
        | none => rfl
        | some w =>
          exfalso
          have : job.state = JobState.processing := hj.1 (by simp [hw])
          rw [hst] at this
          exact JobState.noConfusion this
      simp only [List.mem_append, List.mem_cons] at hx
      rcases hx with hxpre | rfl | hxpost
      · exact hinv x (by rw [hdec]; simp [hxpre])
      · unfold workerInv
        cases job
        simp_all [mergeJob, QueueManager.retryUpdate, JobPartial.empty]
      · exact hinv x (by rw [hdec]; simp [hxpost])
    · simp only [hst, if_false]
      exact hinv

theorem workerInv_resetStuckJobs (jobs : List Job) (now : Int)
    (hinv : ∀ j ∈ jobs, workerInv j) :
    ∀ x ∈ (QueueManager.resetStuckJobs jobs now).1, workerInv x := by
  unfold QueueManager.resetStuckJobs
  suffices h : ∀ (snap store : List Job) (c : Nat),
      (∀ j ∈ store, workerInv j) →
      ∀ x ∈ (List.foldl
        (fun acc j =>
          if j.state = JobState.processing then
            ((JobStorage.updateJob acc.1 j.id QueueManager.resetUpdate now).1,
              acc.2 + 1)
          else acc)
        (store, c) snap).1, workerInv x by
    exact h jobs jobs 0 hinv
  intro snap
  induction snap with
  | nil => intro store c h x hx; exact h x hx
  | cons j rest ih =>
    intro store c h x hx
    simp only [List.foldl_cons] at hx
    by_cases hst : j.state = JobState.processing
    · rw [if_pos hst] at hx
      exact ih _ _
        (workerInv_after_updateJob store j.id QueueManager.resetUpdate now h
          (fun y => workerInv_merge_reset y now)) x hx
    · rw [if_neg hst] at hx
      exact ih store c h x hx

theorem trim_single_x : "x".trim = "x" := by
  unfold String.trim Substring.trim String.toSubstring
  unfold Substring.takeWhileAux Substring.takeRightWhileAux
  have e1 : "x".endPos = ⟨1⟩ := by decide
  have e2 : ("x".get 0).isWhitespace = false := by decide
  have e3 : "x".prev ⟨1⟩ = 0 := by decide
  rw [e1]
  simp [e2, e3]
  decide

/-! ## Claim theorems -/

/-- C1: the claim says job selection and busy-marking happen inside one
mutually exclusive critical section, so no interleaving of two workers'
claim operations can make both hold the same job in Processing.  The code
performs them as two separately locked storage operations
(`Worker.processNextJob` first awaits `getNextJob`, then `processJob` issues
the Processing `updateJob`), and this concrete interleaving of two workers
over one Pending job ends with both workers simultaneously busy on job "a"
while it is in Processing — duplicate execution of one job. -/
theorem c1_two_workers_hold_same_job :
    raceDemoFinal.w1.busy = true ∧ raceDemoFinal.w2.busy = true ∧
    raceDemoFinal.w1.currentJobId = some "a" ∧
    raceDemoFinal.w2.currentJobId = some "a" ∧
    ∃ jf, JobStorage.getJob raceDemoFinal.store "a" = some jf ∧
      jf.state = JobState.processing := by
  have hsel : QueueManager.getNextJob
      [(⟨"a", "echo hi", JobState.pending, 0, 3, 0, 0, none, none, none,
        none⟩ : Job)] 100 =
      some ⟨"a", "echo hi", JobState.pending, 0, 3, 0, 0, none, none, none,
        none⟩ := by
    simp [QueueManager.getNextJob, JobStorage.getNextPendingJob,
      JobStorage.isEligible, List.mergeSort_singleton]
  have hrun : raceDemoFinal =
      ⟨[⟨"a", "echo hi", JobState.processing, 0, 3, 0, 100, none, none, none,
        some "w2"⟩], ⟨some "a", true⟩, ⟨some "a", true⟩⟩ := by
    unfold raceDemoFinal
    simp only [sampleJobPending]
    simp [runRace, raceStep, selectStep, markStep, WorkerLoc.idle, hsel,
      QueueManager.markProcessing, JobStorage.updateJob, mergeJob,
      QueueManager.processingUpdate, JobPartial.empty]
  rw [hrun]
  refine ⟨rfl, rfl, rfl, rfl,
    ⟨"a", "echo hi", JobState.processing, 0, 3, 0, 100, none, none, none,
      some "w2"⟩, ?_, rfl⟩
  simp [JobStorage.getJob, List.find?]

/-- C2 counterexample: with `max_retries = 0` the very first failure report
sends the job to Dead with `attempts = 1`, which is not equal to
`max_retries`; so "at the moment it enters Dead its attempts field equals
max_retries ... including 0" is false on the code. -/
theorem c2_counterexample_max_retries_zero :
    QueueManager.handleJobFailure [sampleJobZeroRetries] "e" "boom" 2 100 =
      [⟨"e", "exit 1", JobState.dead, 1, 0, 0, 100, none, some "boom", none,
        none⟩] ∧
    ¬ (((1 : Nat) : Int) = (0 : Int)) := by
  constructor
  · decide
  · decide

/-- C2 (amended): starting from a freshly claimed job (attempts 0) with
`max_retries = mr ≥ 1`, a run of `n ≤ mr` consecutive failure reports leaves
the job with `attempts = n`, and the job is Dead exactly when `n = mr` — so
it enters Dead precisely on the failure whose post-increment attempt count
reaches `max_retries`, with `attempts = max_retries` at that moment — and a
Dead job appears in neither the Pending nor the Failed state listing.  (For
`max_retries = 0` the code instead dies on the first failure with
`attempts = 1`; see the counterexample.) -/
theorem c2_dead_exactly_at_max_retries (idv cmd err w : String)
    (mr backoffBase t0 now : Int) (hmr : 1 ≤ mr) (n : Nat)
    (hn : (n : Int) ≤ mr) :
    ∃ jn, QueueManager.failTimes n
        [⟨idv, cmd, JobState.processing, 0, mr, t0, t0, none, none, none,
          some w⟩] idv err backoffBase now = [jn] ∧
      jn.attempts = n ∧
      (jn.state = JobState.dead ↔ (n : Int) = mr) ∧
      (jn.state = JobState.dead → (jn.attempts : Int) = mr) ∧
      (jn.state = JobState.dead →
        JobStorage.getJobsByState [jn] JobState.pending = [] ∧
        JobStorage.getJobsByState [jn] JobState.failed = []) := by
  obtain ⟨jn, heq, hid2, hmr2, hatt, hstate⟩ :=
    failTimes_singleton_spec
      ⟨idv, cmd, JobState.processing, 0, mr, t0, t0, none, none, none,
        some w⟩ err backoffBase now rfl n hn
  simp only at heq hstate
  have hiff : jn.state = JobState.dead ↔ (n : Int) = mr := by
    by_cases h0 : n = 0
    · subst h0
      rw [hstate]
      simp only [if_pos rfl]
      constructor
      · intro hcontra
        exact absurd hcontra (by simp)
      · intro hcontra
        omega
    · by_cases hd : (n : Int) = mr
      · rw [hstate, if_neg h0]
        simp [hd]
      · rw [hstate, if_neg h0]
        simp [hd]
  refine ⟨jn, heq, hatt, hiff, ?_, ?_⟩
  · intro hdead
    rw [hatt]
    exact hiff.1 hdead
  · intro hdead
    constructor <;> simp [JobStorage.getJobsByState, hdead]

/-- C2 witness for the amended theorem: `max_retries = 2`, two consecutive
failures, the job is Dead with `attempts = 2`. -/
theorem c2_dead_exactly_at_max_retries_witness :
    (1 : Int) ≤ 2 ∧ ((2 : Nat) : Int) ≤ 2 ∧
    ∃ jn, QueueManager.failTimes 2
        [⟨"a", "exit 1", JobState.processing, 0, 2, 0, 0, none, none, none,
          some "w1"⟩] "a" "boom" 2 100 = [jn] ∧
      jn.attempts = 2 ∧
      (jn.state = JobState.dead ↔ ((2 : Nat) : Int) = 2) ∧
      (jn.state = JobState.dead → (jn.attempts : Int) = 2) ∧
      (jn.state = JobState.dead →
        JobStorage.getJobsByState [jn] JobState.pending = [] ∧
        JobStorage.getJobsByState [jn] JobState.failed = []) :=
  ⟨by decide, by decide,
    c2_dead_exactly_at_max_retries "a" "exit 1" "boom" "w1" 2 2 0 100
      (by decide) 2 (by decide)⟩

/-- C3: when a failure report arrives and the post-increment attempt count
is still below `max_retries`, the handler sets the job Failed, clears
`worker_id`, records the error, and schedules
`next_retry_at = now + backoffBase ^ (attempts + 1)` seconds (timestamps in
milliseconds, hence `* 1000`): the exponent is the post-increment attempt
count, so the first failure uses exponent 1, the second exponent 2, and so
on.  Every other job in the store is untouched. -/
theorem c3_backoff_uses_post_increment_attempts (jobs : List Job)
    (jobId errorMessage : String) (backoffBase now : Int) (job : Job)
    (hget : JobStorage.getJob jobs jobId = some job)
    (hlt : ((job.attempts + 1 : Nat) : Int) < job.max_retries) :
    ∃ pre post, jobs = pre ++ job :: post ∧
      QueueManager.handleJobFailure jobs jobId errorMessage backoffBase now =
        pre ++ { job with
          state := JobState.failed
          attempts := job.attempts + 1
          error_message := some errorMessage
          next_retry_at := some (now + backoffBase ^ (job.attempts + 1) * 1000)
          worker_id := none
          updated_at := now } :: post := by
  obtain ⟨pre, post, hdec, hpre, hid, hupd⟩ :=
    updateJob_of_getJob jobs jobId
      { JobPartial.empty with
        state := some JobState.failed
        attempts := some (job.attempts + 1)
        error_message := some (some errorMessage)
        next_retry_at := some (some (now + backoffBase ^ (job.attempts + 1)
          * 1000))
        worker_id := some none } now job hget
  refine ⟨pre, post, hdec, ?_⟩
  unfold QueueManager.handleJobFailure
  rw [hget]
  dsimp only
  rw [if_neg (not_le.2 hlt)]
  dsimp only at hupd
  rw [hupd]
  simp [mergeJob, JobPartial.empty]

/-- C3 witness: a Processing job with attempts 0 and `max_retries = 3` fails
once: it becomes Failed with attempts 1 and
`next_retry_at = now + backoffBase ^ 1` seconds. -/
theorem c3_backoff_uses_post_increment_attempts_witness :
    JobStorage.getJob [sampleJobProcessing] "d" = some sampleJobProcessing ∧
    ((sampleJobProcessing.attempts + 1 : Nat) : Int)
      < sampleJobProcessing.max_retries ∧
    ∃ pre post, [sampleJobProcessing] = pre ++ sampleJobProcessing :: post ∧
      QueueManager.handleJobFailure [sampleJobProcessing] "d" "boom" 2 100 =
        pre ++ { sampleJobProcessing with
          state := JobState.failed
          attempts := sampleJobProcessing.attempts + 1
          error_message := some "boom"
          next_retry_at := some (100 + 2 ^ (sampleJobProcessing.attempts + 1)
            * 1000)
          worker_id := none
          updated_at := 100 } :: post :=
  ⟨by decide, by decide,
    c3_backoff_uses_post_increment_attempts [sampleJobProcessing] "d" "boom"
      2 100 sampleJobProcessing (by decide) (by decide)⟩

/-- C4 counterexample: claiming a Failed job (state Failed,
`next_retry_at = 50`) marks it Processing but leaves `next_retry_at` set, so
the invariant "`next_retry_at` set ⇔ state == Failed" is not preserved: the
job enters Processing while retaining the `next_retry_at` left over from its
earlier Failed state. -/
theorem c4_counterexample_processing_keeps_next_retry_at :
    QueueManager.markProcessing [sampleJobFailed] "b" "w1" 100 =
      [⟨"b", "exit 1", JobState.processing, 1, 3, 0, 100, some 50,
        some "boom", none, some "w1"⟩] ∧
    ∃ jf, JobStorage.getJob
        (QueueManager.markProcessing [sampleJobFailed] "b" "w1" 100) "b" =
        some jf ∧
      jf.state = JobState.processing ∧ jf.next_retry_at = some 50 := by
  refine ⟨by decide,
    ⟨"b", "exit 1", JobState.processing, 1, 3, 0, 100, some 50, some "boom",
      none, some "w1"⟩, by decide, by decide, by decide⟩

/-- C4 (amended): every Queue Manager transition operation (mark-processing,
complete, fail, DLQ-retry, orphan recovery) preserves the invariant
"`worker_id` set ⇔ state == Processing" for every job in the store.  The
`next_retry_at` half of the claimed invariant does not hold: none of the
mark-processing, complete, or fail-to-Dead updates clears `next_retry_at`,
so a job entering Processing or Dead can retain it (see the counterexample);
`next_retry_at` is only written by the fail-with-retry transition and only
cleared by DLQ-retry. -/
theorem c4_worker_id_invariant_preserved (jobs : List Job)
    (jobId workerId errorMessage : String) (output : Option String)
    (backoffBase now : Int) (hinv : ∀ j ∈ jobs, workerInv j) :
    (∀ x ∈ QueueManager.markProcessing jobs jobId workerId now, workerInv x) ∧
    (∀ x ∈ QueueManager.completeJob jobs jobId output now, workerInv x) ∧
    (∀ x ∈ QueueManager.handleJobFailure jobs jobId errorMessage backoffBase
      now, workerInv x) ∧
    (∀ x ∈ (QueueManager.retryDeadJob jobs jobId now).1, workerInv x) ∧
    (∀ x ∈ (QueueManager.resetStuckJobs jobs now).1, workerInv x) :=
  ⟨workerInv_markProcessing jobs jobId workerId now hinv,
    workerInv_completeJob jobs jobId output now hinv,
    workerInv_handleJobFailure jobs jobId errorMessage backoffBase now hinv,
    workerInv_retryDeadJob jobs jobId now hinv,
    workerInv_resetStuckJobs jobs now hinv⟩

/-- C4 witness: the amended invariant preservation applied to a concrete
store holding one Failed and one Processing job. -/
theorem c4_worker_id_invariant_preserved_witness :
    (∀ j ∈ [sampleJobFailed, sampleJobProcessing], workerInv j) ∧
    ((∀ x ∈ QueueManager.markProcessing [sampleJobFailed,
        sampleJobProcessing] "b" "w1" 100, workerInv x) ∧
     (∀ x ∈ QueueManager.completeJob [sampleJobFailed, sampleJobProcessing]
        "d" (some "ok") 100, workerInv x) ∧
     (∀ x ∈ QueueManager.handleJobFailure [sampleJobFailed,
        sampleJobProcessing] "d" "boom" 2 100, workerInv x) ∧
     (∀ x ∈ (QueueManager.retryDeadJob [sampleJobFailed, sampleJobProcessing]
        "b" 100).1, workerInv x) ∧
     (∀ x ∈ (QueueManager.resetStuckJobs [sampleJobFailed,
        sampleJobProcessing] 100).1, workerInv x)) := by
  have hinv : ∀ j ∈ [sampleJobFailed, sampleJobProcessing], workerInv j := by
    intro j hj
    rcases List.mem_cons.1 hj with rfl | hj2
    · unfold workerInv sampleJobFailed
      simp
    · rcases List.mem_cons.1 hj2 with rfl | hj3
      · unfold workerInv sampleJobProcessing
        simp
      · simp at hj3
  refine ⟨hinv, ?_⟩
  have h := c4_worker_id_invariant_preserved [sampleJobFailed,
    sampleJobProcessing] "b" "w1" "boom" (some "ok") 2 100 hinv
  have h2 := c4_worker_id_invariant_preserved [sampleJobFailed,
    sampleJobProcessing] "d" "w1" "boom" (some "ok") 2 100 hinv
  exact ⟨h.1, h2.2.1, h2.2.2.1, h.2.2.2.1, h.2.2.2.2⟩

/-- C5: `getNextPendingJob` returns a job that is in the store, whose state
is Pending or Failed, whose `next_retry_at` is unset or ≤ now, and whose
`created_at` is minimal among all jobs satisfying that eligibility
condition (FIFO); it returns `none` exactly when no job in the store is
eligible. -/
theorem c5_claim_next_eligible_fifo (jobs : List Job) (now : Int) :
    (∀ j, JobStorage.getNextPendingJob jobs now = some j →
      j ∈ jobs ∧
      (j.state = JobState.pending ∨ j.state = JobState.failed) ∧
      (∀ t, j.next_retry_at = some t → t ≤ now) ∧
      ∀ x ∈ jobs,
        (x.state = JobState.pending ∨ x.state = JobState.failed) →
        (∀ t, x.next_retry_at = some t → t ≤ now) →
        j.created_at ≤ x.created_at) ∧
    (JobStorage.getNextPendingJob jobs now = none ↔
      ∀ x ∈ jobs,
        ¬ ((x.state = JobState.pending ∨ x.state = JobState.failed) ∧
          (∀ t, x.next_retry_at = some t → t ≤ now))) := by
  constructor
  · intro j hj
    obtain ⟨hmem, hel, hmin⟩ := getNextPendingJob_some jobs now j hj
    obtain ⟨hel1, hel2⟩ := (isEligible_iff now j).1 hel
    exact ⟨hmem, hel1, hel2, fun x hx h1 h2 =>
      hmin x hx ((isEligible_iff now x).2 ⟨h1, h2⟩)⟩
  · rw [getNextPendingJob_none]
    constructor
    · intro h x hx hcontra
      exact h x hx ((isEligible_iff now x).2 hcontra)
    · intro h x hx hel
      exact h x hx ((isEligible_iff now x).1 hel)

/-- C5 witness: in a store with a Pending job and a Dead job, the Pending
job is returned and satisfies the eligibility and FIFO-minimality
conclusions. -/
theorem c5_claim_next_eligible_fifo_witness :
    JobStorage.getNextPendingJob [sampleJobDead, sampleJobPending] 100 =
      some sampleJobPending ∧
    (sampleJobPending ∈ [sampleJobDead, sampleJobPending] ∧
      (sampleJobPending.state = JobState.pending ∨
        sampleJobPending.state = JobState.failed) ∧
      (∀ t, sampleJobPending.next_retry_at = some t → t ≤ 100) ∧
      ∀ x ∈ [sampleJobDead, sampleJobPending],
        (x.state = JobState.pending ∨ x.state = JobState.failed) →
        (∀ t, x.next_retry_at = some t → t ≤ 100) →
        sampleJobPending.created_at ≤ x.created_at) := by
  have heval : JobStorage.getNextPendingJob [sampleJobDead, sampleJobPending]
      100 = some sampleJobPending := by
    simp [JobStorage.getNextPendingJob, JobStorage.isEligible, sampleJobDead,
      sampleJobPending, List.mergeSort_singleton]
  exact ⟨heval,
    (c5_claim_next_eligible_fifo [sampleJobDead, sampleJobPending] 100).1
      sampleJobPending heval⟩

/-- C6: `retryDeadJob` on an id naming a Dead job resets attempts to 0,
clears `error_message` and `next_retry_at`, sets state Pending (stamping
`updated_at`), leaves every other job in place, and returns `true`; on an
absent id or a non-Dead job it returns `false` with the store completely
unchanged. -/
theorem c6_retry_from_dlq (jobs : List Job) (jobId : String) (now : Int) :
    (JobStorage.getJob jobs jobId = none →
      QueueManager.retryDeadJob jobs jobId now = (jobs, false)) ∧
    (∀ job, JobStorage.getJob jobs jobId = some job →
      ¬ job.state = JobState.dead →
      QueueManager.retryDeadJob jobs jobId now = (jobs, false)) ∧
    (∀ job, JobStorage.getJob jobs jobId = some job →
      job.state = JobState.dead →
      ∃ pre post, jobs = pre ++ job :: post ∧
        QueueManager.retryDeadJob jobs jobId now =
          (pre ++ { job with
            state := JobState.pending
            attempts := 0
            error_message := none
            next_retry_at := none
            updated_at := now } :: post, true)) := by
  refine ⟨?_, ?_, ?_⟩
  · intro hnone
    unfold QueueManager.retryDeadJob
    rw [hnone]
  · intro job hget hnd
    unfold QueueManager.retryDeadJob
    rw [hget]
    dsimp only
    rw [if_neg hnd]
  · intro job hget hd
    obtain ⟨pre, post, hdec, hpre, hid, hupd⟩ :=
      updateJob_of_getJob jobs jobId QueueManager.retryUpdate now job hget
    refine ⟨pre, post, hdec, ?_⟩
    unfold QueueManager.retryDeadJob
    rw [hget]
    dsimp only
    rw [if_pos hd, hupd]
    have hm : mergeJob job QueueManager.retryUpdate now =
        { job with
          state := JobState.pending
          attempts := 0
          error_message := none
          next_retry_at := none
          updated_at := now } := by
      cases job
      simp [mergeJob, QueueManager.retryUpdate, JobPartial.empty]
    rw [hm]

/-- C6 witness: retrying the Dead sample job resets it to Pending with
attempts 0 and cleared error/retry fields; retrying a non-Dead id or an
unknown id returns `false` with the store unchanged. -/
theorem c6_retry_from_dlq_witness :
    (JobStorage.getJob [sampleJobDead, sampleJobPending] "zzz" = none ∧
      QueueManager.retryDeadJob [sampleJobDead, sampleJobPending] "zzz" 100 =
        ([sampleJobDead, sampleJobPending], false)) ∧
    (JobStorage.getJob [sampleJobDead, sampleJobPending] "a" =
        some sampleJobPending ∧
      ¬ sampleJobPending.state = JobState.dead ∧
      QueueManager.retryDeadJob [sampleJobDead, sampleJobPending] "a" 100 =
        ([sampleJobDead, sampleJobPending], false)) ∧
    (JobStorage.getJob [sampleJobDead, sampleJobPending] "c" =
        some sampleJobDead ∧
      sampleJobDead.state = JobState.dead ∧
      ∃ pre post, [sampleJobDead, sampleJobPending] =
          pre ++ sampleJobDead :: post ∧
        QueueManager.retryDeadJob [sampleJobDead, sampleJobPending] "c" 100 =
          (pre ++ { sampleJobDead with
            state := JobState.pending
            attempts := 0
            error_message := none
            next_retry_at := none
            updated_at := 100 } :: post, true)) := by
  refine ⟨⟨by decide, ?_⟩, ⟨by decide, by decide, ?_⟩,
    ⟨by decide, by decide, ?_⟩⟩
  · exact (c6_retry_from_dlq [sampleJobDead, sampleJobPending] "zzz" 100).1
      (by decide)
  · exact (c6_retry_from_dlq [sampleJobDead, sampleJobPending] "a" 100).2.1
      sampleJobPending (by decide) (by decide)
  · exact (c6_retry_from_dlq [sampleJobDead, sampleJobPending] "c" 100).2.2
      sampleJobDead (by decide) (by decide)

/-- C7: `resetStuckJobs` (orphan recovery) maps every Processing job back to
Pending with `worker_id` cleared (stamping `updated_at`), leaves every job
in any other state untouched, and returns the number of Processing jobs it
reset; and `WorkerManager.start` runs orphan recovery as its first event,
before spawning any worker, whenever it starts at all. -/
theorem c7_recover_orphans_resets_processing (jobs : List Job) (now : Int)
    (hids : List.Pairwise (fun a b : Job => ¬ a.id = b.id) jobs) :
    (QueueManager.resetStuckJobs jobs now).2 =
      (jobs.filter (fun j => j.state = JobState.processing)).length ∧
    (QueueManager.resetStuckJobs jobs now).1 = jobs.map (resetJobFn now) ∧
    (∀ j : Job, j.state = JobState.processing → resetJobFn now j =
      { j with
        state := JobState.pending
        worker_id := none
        updated_at := now }) ∧
    (∀ j : Job, ¬ j.state = JobState.processing → resetJobFn now j = j) ∧
    (∀ (alreadyRunning : Bool) (count : Nat) (evs : List StartEvent),
      workerManagerStart alreadyRunning count = Except.ok evs →
      evs.head? = some StartEvent.recoverOrphans) := by
  have hspec := resetStuckJobs_spec jobs now hids
  refine ⟨by rw [hspec], by rw [hspec], ?_, ?_, ?_⟩
  · intro j hj
    unfold resetJobFn
    rw [if_pos hj, mergeJob_resetUpdate]
  · intro j hj
    unfold resetJobFn
    rw [if_neg hj]
  · intro r count evs hok
    unfold workerManagerStart at hok
    split at hok
    · exact absurd hok (by simp)
    · split at hok
      · exact absurd hok (by simp)
      · have hevs : StartEvent.recoverOrphans ::
            (List.range count).map StartEvent.spawnWorker = evs := by
          simpa using hok
        rw [← hevs]
        rfl

/-- C7 witness: a store with one Processing and one Pending job; only the
Processing job is reset and the count is 1. -/
theorem c7_recover_orphans_resets_processing_witness :
    List.Pairwise (fun a b : Job => ¬ a.id = b.id)
      [sampleJobProcessing, sampleJobPending] ∧
    ((QueueManager.resetStuckJobs [sampleJobProcessing, sampleJobPending]
        100).2 =
      ([sampleJobProcessing, sampleJobPending].filter
        (fun j => j.state = JobState.processing)).length ∧
    (QueueManager.resetStuckJobs [sampleJobProcessing, sampleJobPending]
        100).1 =
      [sampleJobProcessing, sampleJobPending].map (resetJobFn 100) ∧
    (∀ j : Job, j.state = JobState.processing → resetJobFn 100 j =
      { j with
        state := JobState.pending
        worker_id := none
        updated_at := 100 }) ∧
    (∀ j : Job, ¬ j.state = JobState.processing → resetJobFn 100 j = j) ∧
    (∀ (alreadyRunning : Bool) (count : Nat) (evs : List StartEvent),
      workerManagerStart alreadyRunning count = Except.ok evs →
      evs.head? = some StartEvent.recoverOrphans)) :=
  ⟨by decide,
    c7_recover_orphans_resets_processing
      [sampleJobProcessing, sampleJobPending] 100 (by decide)⟩

/-- C8 counterexample: appending a second record with the already-present id
"a" succeeds and both records end up in the collection — there is no
`DuplicateId` failure and the collection is changed. -/
theorem c8_counterexample_duplicate_id_not_rejected :
    JobStorage.addJob [sampleJobPending]
        ⟨"a", "echo 2", JobState.pending, 0, 3, 5, 5, none, none, none,
          none⟩ =
      [sampleJobPending,
        ⟨"a", "echo 2", JobState.pending, 0, 3, 5, 5, none, none, none,
          none⟩] ∧
    ¬ JobStorage.addJob [sampleJobPending]
        ⟨"a", "echo 2", JobState.pending, 0, 3, 5, 5, none, none, none,
          none⟩ =
      [sampleJobPending] ∧
    ((JobStorage.addJob [sampleJobPending]
        ⟨"a", "echo 2", JobState.pending, 0, 3, 5, 5, none, none, none,
          none⟩).filter (fun j => j.id = "a")).length = 2 := by
  refine ⟨by decide, by decide, by decide⟩

/-- C8 (amended): `addJob` appends unconditionally — it performs no
duplicate-id check of any kind, so it always succeeds, keeps every existing
record and adds the new one, even when the new record's id is already
present (uniqueness rests solely on the uuid generation scheme). -/
theorem c8_append_is_unconditional (jobs : List Job) (job : Job) :
    JobStorage.addJob jobs job = jobs ++ [job] ∧
    job ∈ JobStorage.addJob jobs job ∧
    (∀ x ∈ jobs, x ∈ JobStorage.addJob jobs job) ∧
    (JobStorage.addJob jobs job).length = jobs.length + 1 := by
  refine ⟨rfl, by simp [JobStorage.addJob], ?_, by simp [JobStorage.addJob]⟩
  intro x hx
  simp [JobStorage.addJob, hx]

/-- C9: `updateJob` with an absent id returns `false` and leaves the store
unchanged; with a present id it returns `true` and replaces exactly the
first job carrying that id by the merge of the given fields, stamping
`updated_at := now`, while every field not present in the update object and
every other job in the store (the `pre`/`post` context) stay unchanged. -/
theorem c9_update_merges_exactly_given_fields (jobs : List Job)
    (jobId : String) (u : JobPartial) (now : Int) :
    ((∀ j ∈ jobs, ¬ j.id = jobId) →
      JobStorage.updateJob jobs jobId u now = (jobs, false)) ∧
    (∀ job, JobStorage.getJob jobs jobId = some job →
      ∃ pre post, jobs = pre ++ job :: post ∧
        (∀ p ∈ pre, ¬ p.id = jobId) ∧
        JobStorage.updateJob jobs jobId u now =
          (pre ++ mergeJob job u now :: post, true) ∧
        (mergeJob job u now).updated_at = now ∧
        (u.id = none → (mergeJob job u now).id = job.id) ∧
        (∀ v, u.id = some v → (mergeJob job u now).id = v) ∧
        (u.command = none →
          (mergeJob job u now).command = job.command) ∧
        (∀ v, u.command = some v → (mergeJob job u now).command = v) ∧
        (u.state = none → (mergeJob job u now).state = job.state) ∧
        (∀ v, u.state = some v → (mergeJob job u now).state = v) ∧
        (u.attempts = none →
          (mergeJob job u now).attempts = job.attempts) ∧
        (∀ v, u.attempts = some v → (mergeJob job u now).attempts = v) ∧
        (u.max_retries = none →
          (mergeJob job u now).max_retries = job.max_retries) ∧
        (∀ v, u.max_retries = some v →
          (mergeJob job u now).max_retries = v) ∧
        (u.created_at = none →
          (mergeJob job u now).created_at = job.created_at) ∧
        (∀ v, u.created_at = some v →
          (mergeJob job u now).created_at = v) ∧
        (u.next_retry_at = none →
          (mergeJob job u now).next_retry_at = job.next_retry_at) ∧
        (∀ v, u.next_retry_at = some v →
          (mergeJob job u now).next_retry_at = v) ∧
        (u.error_message = none →
          (mergeJob job u now).error_message = job.error_message) ∧
        (∀ v, u.error_message = some v →
          (mergeJob job u now).error_message = v) ∧
        (u.output = none → (mergeJob job u now).output = job.output) ∧
        (∀ v, u.output = some v → (mergeJob job u now).output = v) ∧
        (u.worker_id = none →
          (mergeJob job u now).worker_id = job.worker_id) ∧
        (∀ v, u.worker_id = some v → (mergeJob job u now).worker_id = v)) :=
  by
  constructor
  · exact updateJob_not_found jobs jobId u now
  · intro job hget
    obtain ⟨pre, post, hdec, hpre, hid, hupd⟩ :=
      updateJob_of_getJob jobs jobId u now job hget
    refine ⟨pre, post, hdec, hpre, hupd, rfl, ?_, ?_, ?_, ?_, ?_, ?_, ?_,
      ?_, ?_, ?_, ?_, ?_, ?_, ?_, ?_, ?_, ?_, ?_, ?_, ?_⟩ <;>
      first
        | (intro h; simp [mergeJob, h])
        | (intro v h; simp [mergeJob, h])

/-- C9 witness: updating an absent id is a `false` no-op; updating job "a"
with an output-only update object stamps `updated_at`, sets the output, and
keeps every other field and job. -/
theorem c9_update_merges_exactly_given_fields_witness :
    (∀ j ∈ [sampleJobPending], ¬ j.id = "zzz") ∧
    JobStorage.updateJob [sampleJobPending] "zzz" sampleUpdate 5 =
      ([sampleJobPending], false) ∧
    JobStorage.getJob [sampleJobPending] "a" = some sampleJobPending ∧
    ∃ pre post, [sampleJobPending] = pre ++ sampleJobPending :: post ∧
      (∀ p ∈ pre, ¬ p.id = "a") ∧
      JobStorage.updateJob [sampleJobPending] "a" sampleUpdate 5 =
        (pre ++ mergeJob sampleJobPending sampleUpdate 5 :: post, true) ∧
      (mergeJob sampleJobPending sampleUpdate 5).updated_at = 5 ∧
      (sampleUpdate.id = none →
        (mergeJob sampleJobPending sampleUpdate 5).id =
          sampleJobPending.id) ∧
      (∀ v, sampleUpdate.id = some v →
        (mergeJob sampleJobPending sampleUpdate 5).id = v) ∧
      (sampleUpdate.command = none →
        (mergeJob sampleJobPending sampleUpdate 5).command =
          sampleJobPending.command) ∧
      (∀ v, sampleUpdate.command = some v →
        (mergeJob sampleJobPending sampleUpdate 5).command = v) ∧
      (sampleUpdate.state = none →
        (mergeJob sampleJobPending sampleUpdate 5).state =
          sampleJobPending.state) ∧
      (∀ v, sampleUpdate.state = some v →
        (mergeJob sampleJobPending sampleUpdate 5).state = v) ∧
      (sampleUpdate.attempts = none →
        (mergeJob sampleJobPending sampleUpdate 5).attempts =
          sampleJobPending.attempts) ∧
      (∀ v, sampleUpdate.attempts = some v →
        (mergeJob sampleJobPending sampleUpdate 5).attempts = v) ∧
      (sampleUpdate.max_retries = none →
        (mergeJob sampleJobPending sampleUpdate 5).max_retries =
          sampleJobPending.max_retries) ∧
      (∀ v, sampleUpdate.max_retries = some v →
        (mergeJob sampleJobPending sampleUpdate 5).max_retries = v) ∧
      (sampleUpdate.created_at = none →
        (mergeJob sampleJobPending sampleUpdate 5).created_at =
          sampleJobPending.created_at) ∧
      (∀ v, sampleUpdate.created_at = some v →
        (mergeJob sampleJobPending sampleUpdate 5).created_at = v) ∧
      (sampleUpdate.next_retry_at = none →
        (mergeJob sampleJobPending sampleUpdate 5).next_retry_at =
          sampleJobPending.next_retry_at) ∧
      (∀ v, sampleUpdate.next_retry_at = some v →
        (mergeJob sampleJobPending sampleUpdate 5).next_retry_at = v) ∧
      (sampleUpdate.error_message = none →
        (mergeJob sampleJobPending sampleUpdate 5).error_message =
          sampleJobPending.error_message) ∧
      (∀ v, sampleUpdate.error_message = some v →
        (mergeJob sampleJobPending sampleUpdate 5).error_message = v) ∧
      (sampleUpdate.output = none →
        (mergeJob sampleJobPending sampleUpdate 5).output =
          sampleJobPending.output) ∧
      (∀ v, sampleUpdate.output = some v →
        (mergeJob sampleJobPending sampleUpdate 5).output = v) ∧
      (sampleUpdate.worker_id = none →
        (mergeJob sampleJobPending sampleUpdate 5).worker_id =
          sampleJobPending.worker_id) ∧
      (∀ v, sampleUpdate.worker_id = some v →
        (mergeJob sampleJobPending sampleUpdate 5).worker_id = v) :=
  ⟨by decide,
    (c9_update_merges_exactly_given_fields [sampleJobPending] "zzz"
      sampleUpdate 5).1 (by decide),
    by decide,
    (c9_update_merges_exactly_given_fields [sampleJobPending] "a"
      sampleUpdate 5).2 sampleJobPending (by decide)⟩

/-- C10: `enqueue` accepts any numeric `max_retries` override without range
validation (only the command is validated), and a job created with
`max_retries ≤ 0` — zero or negative — dies on its very first failure
report: the handler moves it straight from Processing to Dead with
`attempts = 1`, never entering the Failed (retrying) state, so such a job
is executed at most once. -/
theorem c10_zero_max_retries_dead_on_first_failure (jobs : List Job)
    (newId command errorMessage w : String)
    (configMaxRetries backoffBase now t2 : Int)
    (hcmd1 : ¬ command.trim.length = 0)
    (hcmd2 : ¬ command.length > 10000) :
    (∀ mrAny : Int, ∃ job,
      QueueManager.enqueue jobs newId command (some mrAny) configMaxRetries
        now = Except.ok (JobStorage.addJob jobs job, job) ∧
      job.max_retries = mrAny ∧ job.attempts = 0 ∧
      job.state = JobState.pending) ∧
    (∀ mr : Int, mr ≤ 0 → ∃ job jf,
      QueueManager.enqueue jobs newId command (some mr) configMaxRetries now
        = Except.ok (JobStorage.addJob jobs job, job) ∧
      job.max_retries = mr ∧ job.attempts = 0 ∧
      QueueManager.handleJobFailure
        [{ job with
            state := JobState.processing
            worker_id := some w }] newId errorMessage backoffBase t2 =
        [jf] ∧
      jf.state = JobState.dead ∧ jf.attempts = 1 ∧
      ¬ jf.state = JobState.failed) := by
  have henq : ∀ mrAny : Int,
      QueueManager.enqueue jobs newId command (some mrAny) configMaxRetries
        now = Except.ok (JobStorage.addJob jobs
          ⟨newId, command, JobState.pending, 0, mrAny, now, now, none, none,
            none, none⟩,
          ⟨newId, command, JobState.pending, 0, mrAny, now, now, none, none,
            none, none⟩) := by
    intro mrAny
    unfold QueueManager.enqueue
    rw [if_neg hcmd1, if_neg hcmd2]
    rfl
  constructor
  · intro mrAny
    exact ⟨⟨newId, command, JobState.pending, 0, mrAny, now, now, none, none,
      none, none⟩, henq mrAny, rfl, rfl, rfl⟩
  · intro mr hmr
    have hfail := handleJobFailure_singleton
      ⟨newId, command, JobState.processing, 0, mr, now, now, none, none,
        none, some w⟩ errorMessage backoffBase t2
    have hcond : (((0 : Nat) + 1 : Nat) : Int) ≥ mr := by
      have h1 : (((0 : Nat) + 1 : Nat) : Int) = 1 := by norm_num
      omega
    refine ⟨⟨newId, command, JobState.pending, 0, mr, now, now, none, none,
      none, none⟩,
      failJobOnce errorMessage backoffBase t2
        ⟨newId, command, JobState.processing, 0, mr, now, now, none, none,
          none, some w⟩,
      henq mr, rfl, rfl, ?_, ?_, ?_, ?_⟩
    · exact hfail
    · unfold failJobOnce
      rw [if_pos hcond]
      simp [mergeJob, JobPartial.empty]
    · unfold failJobOnce
      rw [if_pos hcond]
      simp [mergeJob, JobPartial.empty]
    · unfold failJobOnce
      rw [if_pos hcond]
      simp [mergeJob, JobPartial.empty]

/-- C10 witness: command "x" enqueued with override −5 carries
`max_retries = −5`; with override 0 the first failure report makes the job
Dead with `attempts = 1`, never Failed. -/
theorem c10_zero_max_retries_dead_on_first_failure_witness :
    (¬ ("x".trim.length = 0)) ∧ (¬ ("x".length > 10000)) ∧
    (∃ job, QueueManager.enqueue [] "id1" "x" (some (-5)) 3 10 =
        Except.ok (JobStorage.addJob [] job, job) ∧
      job.max_retries = -5 ∧ job.attempts = 0 ∧
      job.state = JobState.pending) ∧
    (∃ job jf, QueueManager.enqueue [] "id1" "x" (some 0) 3 10 =
        Except.ok (JobStorage.addJob [] job, job) ∧
      job.max_retries = 0 ∧ job.attempts = 0 ∧
      QueueManager.handleJobFailure
        [{ job with
            state := JobState.processing
            worker_id := some "w1" }] "id1" "boom" 2 20 = [jf] ∧
      jf.state = JobState.dead ∧ jf.attempts = 1 ∧
      ¬ jf.state = JobState.failed) := by
  have hcmd1 : ¬ ("x".trim.length = 0) := by
    rw [trim_single_x]
    decide
  have hcmd2 : ¬ ("x".length > 10000) := by decide
  refine ⟨hcmd1, hcmd2, ?_, ?_⟩
  · exact (c10_zero_max_retries_dead_on_first_failure [] "id1" "x" "boom"
      "w1" 3 2 10 20 hcmd1 hcmd2).1 (-5)
  · exact (c10_zero_max_retries_dead_on_first_failure [] "id1" "x" "boom"
      "w1" 3 2 10 20 hcmd1 hcmd2).2 0 (by decide)
